import Mathlib

/-!
Verification of the interactive model/result explorer of the SCRAM GUI
(src/gui/mainwindow.cpp).  The C++ source is shallowly embedded: Qt widget
state (tree items, table cells, registered activation actions) is explicit
data, doubles are embedded as exact rationals with the IEEE-754
zero-denominator behaviour made explicit, and the `QTreeWidgetItem*` pointer
identities used as registry keys are modelled by a monotone `Nat` allocator
(a fresh allocation never equals any previously allocated identity, exactly
like a live pointer never aliases another live pointer).
-/

namespace Scram

/-! ## Table widgets

`QTableWidget` as used by `MainWindow` (`constructTableItem` + `setItem`):
a cell holds one `QVariant` datum.  `item` returns the last value written to
a coordinate, `none` if the coordinate was never written. -/

/-- Datum stored in one table cell (the `QVariant` payloads used by
mainwindow.cpp: strings, integral counts/orders, floating-point values).
`nan` and `infty` are the non-finite doubles that `product.p() / sum` can
produce. -/
inductive Cell where
  | str (s : String)
  | nat (n : Nat)
  | num (q : ℚ)
  | nan
  | infty (pos : Bool)
deriving DecidableEq

/-- The slice of `QTableWidget` state that mainwindow.cpp writes:
column count, header labels, row count, and the log of `setItem` calls. -/
structure TableWidget where
  columnCount : Nat
  headers : List String
  rowCount : Nat
  cells : List ((Nat × Nat) × Cell)
deriving DecidableEq

/-- A freshly constructed `QTableWidget(nullptr)`. -/
def TableWidget.empty : TableWidget := ⟨0, [], 0, []⟩

/-- Model of `QTableWidget::setColumnCount`. -/
def TableWidget.setColumnCount (t : TableWidget) (n : Nat) : TableWidget :=
  { t with columnCount := n }

/-- Model of `QTableWidget::setHorizontalHeaderLabels`. -/
def TableWidget.setHorizontalHeaderLabels (t : TableWidget) (hs : List String) : TableWidget :=
  { t with headers := hs }

/-- Model of `QTableWidget::setRowCount`. -/
def TableWidget.setRowCount (t : TableWidget) (n : Nat) : TableWidget :=
  { t with rowCount := n }

/-- Model of `table->setItem(row, col, constructTableItem(v))`. -/
def TableWidget.setItem (t : TableWidget) (r c : Nat) (v : Cell) : TableWidget :=
  { t with cells := t.cells ++ [((r, c), v)] }

/-- Latest write wins: scan a reversed `setItem` log for a coordinate. -/
def lookupCell : List ((Nat × Nat) × Cell) → Nat → Nat → Option Cell
  | [], _, _ => none
  | (k, v) :: rest, r, c => if k = (r, c) then some v else lookupCell rest r c

/-- The cell visible at a coordinate: the last `setItem` write to it. -/
def TableWidget.item (t : TableWidget) (r c : Nat) : Option Cell :=
  lookupCell t.cells.reverse r c

theorem item_empty (r c : Nat) : TableWidget.empty.item r c = none := rfl

theorem item_setItem_same (t : TableWidget) (r c : Nat) (v : Cell) :
    (t.setItem r c v).item r c = some v := by
  simp [TableWidget.setItem, TableWidget.item, lookupCell]

theorem item_setItem_ne (t : TableWidget) {r c r' c' : Nat} (v : Cell)
    (h : (r', c') ≠ (r, c)) : (t.setItem r c v).item r' c' = t.item r' c' := by
  simp [TableWidget.setItem, TableWidget.item, lookupCell, Ne.symm h]

theorem setItem_columnCount (t : TableWidget) (r c : Nat) (v : Cell) :
    (t.setItem r c v).columnCount = t.columnCount := rfl

theorem setItem_headers (t : TableWidget) (r c : Nat) (v : Cell) :
    (t.setItem r c v).headers = t.headers := rfl

theorem setItem_rowCount (t : TableWidget) (r c : Nat) (v : Cell) :
    (t.setItem r c v).rowCount = t.rowCount := rfl

/-! ## IEEE division

`product.p() / sum` is a C++ `double` division.  The embedding uses exact
rationals, with the IEEE-754 behaviour for an exactly-zero denominator made
explicit: `0/0 = NaN` and `x/0 = ±inf` for `x ≠ 0`.  (For a nonzero
denominator the quotient is the exact rational; rounding is immaterial to
the verified claims, which only distinguish zero from nonzero sums.) -/

/-- Division with the IEEE-754 binary64 zero-denominator behaviour. -/
def ieeeDiv (x y : ℚ) : Cell :=
  if y = 0 then (if x = 0 then Cell.nan else Cell.infty (decide (0 < x)))
  else Cell.num (x / y)

theorem ieeeDiv_zero_zero : ieeeDiv 0 0 = Cell.nan := rfl

/-! ## Row loops

Each table in mainwindow.cpp is filled by one `for` loop with an explicit
`row` counter incremented once per record (`++row`).  `tableRowsLoop` is that
loop shape; each table supplies its own per-row write. -/

/-- The `for (...) { ...; ++row; }` loop filling a table, one list element
per row starting at `row`. -/
def tableRowsLoop {α : Type} (write : α → Nat → TableWidget → TableWidget) :
    List α → Nat → TableWidget → TableWidget
  | [], _, t => t
  | a :: rest, row, t => tableRowsLoop write rest (row + 1) (write a row t)

/-- A per-row write that only touches its own row leaves other rows alone,
so the loop leaves every row below its starting row untouched. -/
theorem tableRowsLoop_item_lt {α : Type} (write : α → Nat → TableWidget → TableWidget)
    (hskip : ∀ a row t r c, r ≠ row → (write a row t).item r c = t.item r c) :
    ∀ (ps : List α) (row t r c), r < row →
      (tableRowsLoop write ps row t).item r c = t.item r c := by
  intro ps
  induction ps with
  | nil => intro row t r c _; rfl
  | cons a rest ih =>
    intro row t r c hr
    rw [tableRowsLoop, ih (row + 1) _ r c (Nat.lt_succ_of_lt hr),
      hskip a row t r c (Nat.ne_of_lt hr)]

/-- If the element at index `i` writes value `v` into column `c` of its own
row however the table looked before, then after the loop the cell at
`(row + i, c)` holds `v`. -/
theorem tableRowsLoop_item_at {α : Type} (write : α → Nat → TableWidget → TableWidget)
    (hskip : ∀ a row t r c, r ≠ row → (write a row t).item r c = t.item r c)
    (c : Nat) (v : Option Cell) :
    ∀ (ps : List α) (i : Nat) (a : α), ps.get? i = some a →
      (∀ row t, (write a row t).item row c = v) →
      ∀ row t, (tableRowsLoop write ps row t).item (row + i) c = v := by
  intro ps
  induction ps with
  | nil => intro i a hget; simp at hget
  | cons hd rest ih =>
    intro i a hget hspec row t
    match i with
    | 0 =>
      simp only [List.get?] at hget
      cases hget
      rw [tableRowsLoop]
      simp only [Nat.add_zero]
      rw [tableRowsLoop_item_lt write hskip rest (row + 1) _ row c (Nat.lt_succ_self row)]
      exact hspec row t
    | Nat.succ j =>
      simp only [List.get?] at hget
      rw [tableRowsLoop]
      have : row + (j + 1) = (row + 1) + j := by omega
      rw [this]
      exact ih j a hget hspec (row + 1) (write hd row t)

/-- A per-row write that never touches the fixed coordinate `(r, c)` keeps
that cell constant across the whole loop. -/
theorem tableRowsLoop_item_const {α : Type} (write : α → Nat → TableWidget → TableWidget)
    (r c : Nat) (h : ∀ a row t, (write a row t).item r c = t.item r c) :
    ∀ (ps : List α) (row t), (tableRowsLoop write ps row t).item r c = t.item r c := by
  intro ps
  induction ps with
  | nil => intro row t; rfl
  | cons a rest ih => intro row t; rw [tableRowsLoop, ih, h]

/-- Per-row writes change no table-level field, so neither does the loop. -/
theorem tableRowsLoop_fields {α : Type} (write : α → Nat → TableWidget → TableWidget)
    (h : ∀ a row t, ((write a row t).columnCount = t.columnCount ∧
         (write a row t).headers = t.headers ∧ (write a row t).rowCount = t.rowCount)) :
    ∀ (ps : List α) (row t),
      (tableRowsLoop write ps row t).columnCount = t.columnCount ∧
      (tableRowsLoop write ps row t).headers = t.headers ∧
      (tableRowsLoop write ps row t).rowCount = t.rowCount := by
  intro ps
  induction ps with
  | nil => intro row t; exact ⟨rfl, rfl, rfl⟩
  | cons a rest ih =>
    intro row t
    obtain ⟨h1, h2, h3⟩ := ih (row + 1) (write a row t)
    obtain ⟨g1, g2, g3⟩ := h a row t
    rw [tableRowsLoop]
    exact ⟨h1.trans g1, h2.trans g2, h3.trans g3⟩

/-! ## Data model

The analysis-side data referenced by mainwindow.cpp.  These types live in the
analysis core (`mef::`/`core::`), outside the GUI source; their shapes follow
the specification of the data model (§3): `BasicEvent` carries an optional
quantified probability (`HasExpression`), a `Product` is a list of literals
with an order equal to its literal count and a probability, an
`ImportanceRecord` is an event reference plus the factor bundle
{occurrence, probability, MIF, CIF, DIF, RAW, RRW}, and a result identity is
either a gate reference or an initiating-event/sequence pair. -/

/-- Modelled from the spec: `mef::BasicEvent` — id, optional probability
value (`HasExpression` distinguishes quantified from symbolic), label. -/
structure BasicEvent where
  id : String
  expression : Option ℚ
  label : String
deriving DecidableEq

/-- Model of `BasicEvent::HasExpression()`. -/
def BasicEvent.HasExpression (e : BasicEvent) : Bool := e.expression.isSome

/-- Model of `BasicEvent::p()`; its contract requires `HasExpression`, the
total model returns 0 outside that contract. -/
def BasicEvent.p (e : BasicEvent) : ℚ := e.expression.getD 0

/-- Modelled from the spec: `core::Literal` — event reference plus
complement flag. -/
structure Literal where
  complement : Bool
  eventId : String
deriving DecidableEq

/-- Modelled from the spec: `core::Product` — ordered literals and, when
probability data exists, a probability. -/
structure Product where
  literals : List Literal
  p : ℚ
deriving DecidableEq

/-- Modelled from the spec: `Product::order()` is the literal count. -/
def Product.order (pr : Product) : Nat := pr.literals.length

/-- Modelled from the spec: the factor bundle of an importance record:
{occurrence count, probability, MIF, CIF, DIF, RAW, RRW}. -/
structure ImportanceFactors where
  occurrence : Nat
  probability : ℚ
  mif : ℚ
  cif : ℚ
  dif : ℚ
  raw : ℚ
  rrw : ℚ
deriving DecidableEq

/-- Modelled from the spec: `core::ImportanceRecord` — event reference plus
factor bundle. -/
structure ImportanceRecord where
  event : BasicEvent
  factors : ImportanceFactors
deriving DecidableEq

/-- The two variant shapes of `core::RiskAnalysis::Result::id` (a boost
variant): a gate reference (identified by the gate id) or an
initiating-event/sequence pair. -/
inductive ResultId where
  | gate (id : String)
  | sequencePair (initiatingEvent : String) (sequenceName : String)
deriving DecidableEq

/-- One `core::RiskAnalysis::Result`: identity, the mandatory fault-tree
analysis sub-result (its products; `GUI_ASSERT(result.fault_tree_analysis,)`
at mainwindow.cpp:532 together with the spec invariant make it mandatory),
an optional probability sub-result (`p_total`) and an optional importance
sub-result. -/
structure Result where
  id : ResultId
  products : List Product
  probability_analysis : Option ℚ
  importance_analysis : Option (List ImportanceRecord)
deriving DecidableEq

/-! ## Product table (mainwindow.cpp:537-576)

The action registered for the products summary child.  Literals are joined
with a dot separator, complemented literals prefixed with a negation sign;
with a probability sub-result the table has 4 columns and sums the product
probabilities once before the row loop; without it only 2 columns. -/

/-- One literal as shown in the Product column:
`(literal.complement ? "¬" : "") + literal.event.id()`. -/
def literalText (l : Literal) : String :=
  (if l.complement then "¬" else "") ++ l.eventId

/-- The Product column text: literal texts joined by `" ⋅ "`
(`members.join(" ⋅ ")`). -/
def productMembers (pr : Product) : String :=
  String.intercalate " ⋅ " (pr.literals.map literalText)

/-- The body of the product-table row loop (mainwindow.cpp:554-569). -/
def productRowWrite (hasProb : Bool) (sum : ℚ) (product : Product)
    (row : Nat) (t : TableWidget) : TableWidget :=
  let t := t.setItem row 0 (Cell.str (productMembers product))
  let t := t.setItem row 1 (Cell.nat product.order)
  if hasProb then
    (t.setItem row 2 (Cell.num product.p)).setItem row 3 (ieeeDiv product.p sum)
  else t

/-- The product table built on activating the products summary child
(mainwindow.cpp:537-576): the probability sum is accumulated once before the
row loop, and the column layout depends on the probability sub-result. -/
def buildProductTable (result : Result) : TableWidget :=
  let products := result.products
  let hasProb := result.probability_analysis.isSome
  let sum : ℚ := if hasProb then (products.map Product.p).sum else 0
  let t := TableWidget.empty
  let t :=
    if hasProb then
      (t.setColumnCount 4).setHorizontalHeaderLabels
        ["Product", "Order", "Probability", "Contribution"]
    else
      (t.setColumnCount 2).setHorizontalHeaderLabels ["Product", "Order"]
  let t := t.setRowCount products.length
  tableRowsLoop (productRowWrite hasProb sum) products 0 t

theorem productRowWrite_skip (hasProb : Bool) (sum : ℚ) :
    ∀ pr row t r c, r ≠ row →
      (productRowWrite hasProb sum pr row t).item r c = t.item r c := by
  intro pr row t r c hr
  have hne : ∀ c0 c1 : Nat, ((r, c0) : Nat × Nat) ≠ (row, c1) := by
    intro c0 c1 h
    exact hr (congrArg Prod.fst h)
  unfold productRowWrite
  cases hasProb <;>
    simp only [Bool.false_eq_true, if_false, if_true, item_setItem_ne _ _ (hne _ _)]

theorem productRowWrite_fields (hasProb : Bool) (sum : ℚ) :
    ∀ pr row t, ((productRowWrite hasProb sum pr row t).columnCount = t.columnCount ∧
      (productRowWrite hasProb sum pr row t).headers = t.headers ∧
      (productRowWrite hasProb sum pr row t).rowCount = t.rowCount) := by
  intro pr row t
  unfold productRowWrite
  cases hasProb <;> simp [TableWidget.setItem]

/-! ## Importance table (mainwindow.cpp:589-624)

The action registered for the importance summary child.  Note column 2
(Probability) is written from `record.event.p()` (mainwindow.cpp:604-605),
while the factor columns come from `record.factors`. -/

/-- The body of the importance-table row loop (mainwindow.cpp:598-617). -/
def importanceRowWrite (record : ImportanceRecord) (row : Nat)
    (t : TableWidget) : TableWidget :=
  let t := t.setItem row 0 (Cell.str record.event.id)
  let t := t.setItem row 1 (Cell.nat record.factors.occurrence)
  let t := t.setItem row 2 (Cell.num record.event.p)
  let t := t.setItem row 3 (Cell.num record.factors.mif)
  let t := t.setItem row 4 (Cell.num record.factors.cif)
  let t := t.setItem row 5 (Cell.num record.factors.dif)
  let t := t.setItem row 6 (Cell.num record.factors.raw)
  t.setItem row 7 (Cell.num record.factors.rrw)

/-- The importance table built on activating the importance summary child
(mainwindow.cpp:589-624). -/
def buildImportanceTable (records : List ImportanceRecord) : TableWidget :=
  let t := ((TableWidget.empty.setColumnCount 8).setHorizontalHeaderLabels
    ["Id", "Occurrence", "Probability", "MIF", "CIF", "DIF", "RAW", "RRW"]).setRowCount
      records.length
  tableRowsLoop importanceRowWrite records 0 t

theorem importanceRowWrite_skip :
    ∀ rec row t r c, r ≠ row →
      (importanceRowWrite rec row t).item r c = t.item r c := by
  intro rec row t r c hr
  have hne : ∀ c0 c1 : Nat, ((r, c0) : Nat × Nat) ≠ (row, c1) := by
    intro c0 c1 h
    exact hr (congrArg Prod.fst h)
  unfold importanceRowWrite
  simp only [item_setItem_ne _ _ (hne _ _)]

/-! ## Basic-event table (mainwindow.cpp:478-501)

The Model Data / Basic Events action: columns {Id, Probability, Label}, the
probability cell is the value when `HasExpression()` and the string "NULL"
otherwise. -/

/-- The body of the basic-event-table row loop (mainwindow.cpp:485-495). -/
def basicEventRowWrite (e : BasicEvent) (row : Nat) (t : TableWidget) : TableWidget :=
  let t := t.setItem row 0 (Cell.str e.id)
  let t := t.setItem row 1
    (match e.expression with
     | some q => Cell.num q
     | none => Cell.str "NULL")
  t.setItem row 2 (Cell.str e.label)

/-- The basic-event table built on activating the Basic Events node
(mainwindow.cpp:478-501). -/
def buildBasicEventTable (events : List BasicEvent) : TableWidget :=
  let t := ((TableWidget.empty.setColumnCount 3).setHorizontalHeaderLabels
    ["Id", "Probability", "Label"]).setRowCount events.length
  tableRowsLoop basicEventRowWrite events 0 t

/-! ## Cell contents of single rows -/

theorem productRowWrite_cells (hasProb : Bool) (sum : ℚ) (pr : Product)
    (row : Nat) (t : TableWidget) :
    (productRowWrite hasProb sum pr row t).item row 0
        = some (Cell.str (productMembers pr)) ∧
    (productRowWrite hasProb sum pr row t).item row 1 = some (Cell.nat pr.order) ∧
    (hasProb = true →
      (productRowWrite hasProb sum pr row t).item row 2 = some (Cell.num pr.p) ∧
      (productRowWrite hasProb sum pr row t).item row 3
        = some (ieeeDiv pr.p sum)) := by
  cases hasProb <;>
    simp [productRowWrite, TableWidget.setItem, TableWidget.item, lookupCell]

theorem productRowWrite_no_col (sum : ℚ) (pr : Product) (row : Nat)
    (t : TableWidget) (r c : Nat) (hc : 2 ≤ c) :
    (productRowWrite false sum pr row t).item r c = t.item r c := by
  unfold productRowWrite
  simp only [Bool.false_eq_true, if_false]
  rw [item_setItem_ne _ _ (fun h => by have := congrArg Prod.snd h; simp at this; omega),
    item_setItem_ne _ _ (fun h => by have := congrArg Prod.snd h; simp at this; omega)]

theorem importanceRowWrite_cells (rec : ImportanceRecord) (row : Nat) (t : TableWidget) :
    (importanceRowWrite rec row t).item row 0 = some (Cell.str rec.event.id) ∧
    (importanceRowWrite rec row t).item row 1 = some (Cell.nat rec.factors.occurrence) ∧
    (importanceRowWrite rec row t).item row 2 = some (Cell.num rec.event.p) ∧
    (importanceRowWrite rec row t).item row 3 = some (Cell.num rec.factors.mif) ∧
    (importanceRowWrite rec row t).item row 4 = some (Cell.num rec.factors.cif) ∧
    (importanceRowWrite rec row t).item row 5 = some (Cell.num rec.factors.dif) ∧
    (importanceRowWrite rec row t).item row 6 = some (Cell.num rec.factors.raw) ∧
    (importanceRowWrite rec row t).item row 7 = some (Cell.num rec.factors.rrw) := by
  simp [importanceRowWrite, TableWidget.setItem, TableWidget.item, lookupCell]

theorem importanceRowWrite_fields (rec : ImportanceRecord) (row : Nat) (t : TableWidget) :
    (importanceRowWrite rec row t).columnCount = t.columnCount ∧
    (importanceRowWrite rec row t).headers = t.headers ∧
    (importanceRowWrite rec row t).rowCount = t.rowCount := by
  simp [importanceRowWrite, TableWidget.setItem]

/-- A list of nonnegative rationals with sum zero is all zeros (probabilities
are nonnegative, so `sum == 0` forces every `product.p()` to be `0`). -/
theorem all_zero_of_sum_zero : ∀ (l : List ℚ), (∀ x ∈ l, 0 ≤ x) → l.sum = 0 →
    ∀ x ∈ l, x = 0 := by
  intro l
  induction l with
  | nil => intro _ _ x hx; simp at hx
  | cons a l ih =>
    intro hnn hsum x hx
    have ha : 0 ≤ a := hnn a (List.mem_cons_self a l)
    have hl : 0 ≤ l.sum :=
      List.sum_nonneg (fun x hx => hnn x (List.mem_cons_of_mem a hx))
    rw [List.sum_cons] at hsum
    rcases List.mem_cons.mp hx with rfl | hx
    · linarith
    · exact ih (fun y hy => hnn y (List.mem_cons_of_mem a hy)) (by linarith) x hx

/-! ## Claims about the detail tables -/

/-- C4: the product table has columns {Product, Order, Probability,
Contribution} when a probability sub-result is present and exactly
{Product, Order} when it is absent, one row per product; each present
Contribution cell is that product's probability divided (IEEE) by the sum of
the probabilities over all products of the result, the same sum for every
row of one build. -/
theorem product_table_columns_rows_contribution (result : Result) :
    (buildProductTable result).rowCount = result.products.length ∧
    (result.probability_analysis.isSome = true →
      (buildProductTable result).columnCount = 4 ∧
      (buildProductTable result).headers
        = ["Product", "Order", "Probability", "Contribution"]) ∧
    (result.probability_analysis = none →
      (buildProductTable result).columnCount = 2 ∧
      (buildProductTable result).headers = ["Product", "Order"] ∧
      ∀ r c, 2 ≤ c → (buildProductTable result).item r c = none) ∧
    (∀ i pr, result.products.get? i = some pr →
      (buildProductTable result).item i 0 = some (Cell.str (productMembers pr)) ∧
      (buildProductTable result).item i 1 = some (Cell.nat pr.order) ∧
      (result.probability_analysis.isSome = true →
        (buildProductTable result).item i 2 = some (Cell.num pr.p) ∧
        (buildProductTable result).item i 3
          = some (ieeeDiv pr.p ((result.products.map Product.p).sum)))) := by
  cases hb : result.probability_analysis with
  | none =>
    have hfields := tableRowsLoop_fields _
      (fun a row t => productRowWrite_fields false 0 a row t)
      result.products 0
      (((TableWidget.empty.setColumnCount 2).setHorizontalHeaderLabels
        ["Product", "Order"]).setRowCount result.products.length)
    refine ⟨?_, ?_, ?_, ?_⟩
    · simpa [buildProductTable, hb] using hfields.2.2
    · intro h; simp at h
    · intro _
      refine ⟨by simpa [buildProductTable, hb] using hfields.1,
        by simpa [buildProductTable, hb] using hfields.2.1, ?_⟩
      intro r c hc
      have hconst := tableRowsLoop_item_const (productRowWrite false 0) r c
        (fun a row t => productRowWrite_no_col 0 a row t r c hc) result.products 0
      simp only [buildProductTable, hb]
      simp only [Option.isSome_none, Bool.false_eq_true, if_false]
      rw [hconst]
      rfl
    · intro i pr hget
      have h0 := tableRowsLoop_item_at (productRowWrite false 0)
        (productRowWrite_skip false 0) 0 (some (Cell.str (productMembers pr)))
        result.products i pr hget
        (fun row t => (productRowWrite_cells false 0 pr row t).1) 0
      have h1 := tableRowsLoop_item_at (productRowWrite false 0)
        (productRowWrite_skip false 0) 1 (some (Cell.nat pr.order))
        result.products i pr hget
        (fun row t => (productRowWrite_cells false 0 pr row t).2.1) 0
      refine ⟨?_, ?_, ?_⟩
      · simpa [buildProductTable, hb] using h0 _
      · simpa [buildProductTable, hb] using h1 _
      · intro h; simp at h
  | some q =>
    have hfields := tableRowsLoop_fields _
      (fun a row t =>
        productRowWrite_fields true ((result.products.map Product.p).sum) a row t)
      result.products 0
      (((TableWidget.empty.setColumnCount 4).setHorizontalHeaderLabels
        ["Product", "Order", "Probability", "Contribution"]).setRowCount
          result.products.length)
    refine ⟨?_, ?_, ?_, ?_⟩
    · simpa [buildProductTable, hb] using hfields.2.2
    · intro _
      exact ⟨by simpa [buildProductTable, hb] using hfields.1,
        by simpa [buildProductTable, hb] using hfields.2.1⟩
    · intro h; simp at h
    · intro i pr hget
      have hsum : ℚ := (result.products.map Product.p).sum
      have h0 := tableRowsLoop_item_at
        (productRowWrite true ((result.products.map Product.p).sum))
        (productRowWrite_skip true _) 0 (some (Cell.str (productMembers pr)))
        result.products i pr hget
        (fun row t => (productRowWrite_cells true _ pr row t).1) 0
      have h1 := tableRowsLoop_item_at
        (productRowWrite true ((result.products.map Product.p).sum))
        (productRowWrite_skip true _) 1 (some (Cell.nat pr.order))
        result.products i pr hget
        (fun row t => (productRowWrite_cells true _ pr row t).2.1) 0
      have h2 := tableRowsLoop_item_at
        (productRowWrite true ((result.products.map Product.p).sum))
        (productRowWrite_skip true _) 2 (some (Cell.num pr.p))
        result.products i pr hget
        (fun row t => ((productRowWrite_cells true _ pr row t).2.2 rfl).1) 0
      have h3 := tableRowsLoop_item_at
        (productRowWrite true ((result.products.map Product.p).sum))
        (productRowWrite_skip true _) 3
        (some (ieeeDiv pr.p ((result.products.map Product.p).sum)))
        result.products i pr hget
        (fun row t => ((productRowWrite_cells true _ pr row t).2.2 rfl).2) 0
      refine ⟨?_, ?_, fun _ => ⟨?_, ?_⟩⟩
      · simpa [buildProductTable, hb] using h0 _
      · simpa [buildProductTable, hb] using h1 _
      · simpa [buildProductTable, hb] using h2 _
      · simpa [buildProductTable, hb] using h3 _

/-- Concrete input for the C4 witness: two products, probability present. -/
def witProdResult : Result :=
  { id := ResultId.gate "top",
    products := [{ literals := [{ complement := false, eventId := "a" }], p := 1/4 },
                 { literals := [{ complement := true, eventId := "b" }], p := 3/4 }],
    probability_analysis := some 1,
    importance_analysis := none }

theorem product_table_columns_rows_contribution_witness :
    witProdResult.probability_analysis.isSome = true ∧
    (buildProductTable witProdResult).rowCount = 2 ∧
    (buildProductTable witProdResult).columnCount = 4 ∧
    (buildProductTable witProdResult).item 0 3 = some (Cell.num (1/4)) := by
  obtain ⟨h1, h2, -, h4⟩ := product_table_columns_rows_contribution witProdResult
  refine ⟨rfl, by simpa [witProdResult] using h1, (h2 rfl).1, ?_⟩
  have hcell := ((h4 0 _ rfl).2.2 rfl).2
  have hs : (List.map Product.p witProdResult.products).sum = 1 := by
    norm_num [witProdResult]
  rw [hcell, hs]
  norm_num [ieeeDiv]

/-- C3: when a probability sub-result is present and the product
probabilities (all nonnegative) sum to zero, every Contribution cell of the
built product table holds NaN — the total `ieeeDiv` never faults, and NaN is
not a numeric cell. -/
theorem zero_total_contribution_nan (result : Result)
    (hp : result.probability_analysis.isSome = true)
    (hnn : ∀ pr ∈ result.products, 0 ≤ pr.p)
    (hsum : (result.products.map Product.p).sum = 0) :
    (∀ i pr, result.products.get? i = some pr →
      (buildProductTable result).item i 3 = some Cell.nan) ∧
    ∀ q : ℚ, Cell.nan ≠ Cell.num q := by
  obtain ⟨q, hb⟩ := Option.isSome_iff_exists.mp hp
  refine ⟨?_, fun q h => by cases h⟩
  intro i pr hget
  have hmem : pr ∈ result.products := List.get?_mem hget
  have hp0 : pr.p = 0 :=
    all_zero_of_sum_zero (result.products.map Product.p)
      (fun x hx => by
        obtain ⟨pr2, hpr2, rfl⟩ := List.mem_map.mp hx
        exact hnn pr2 hpr2)
      hsum pr.p (List.mem_map_of_mem Product.p hmem)
  have h3 := tableRowsLoop_item_at
    (productRowWrite true ((result.products.map Product.p).sum))
    (productRowWrite_skip true _) 3
    (some (ieeeDiv pr.p ((result.products.map Product.p).sum)))
    result.products i pr hget
    (fun row t => ((productRowWrite_cells true _ pr row t).2.2 rfl).2) 0
  have hdiv : ieeeDiv pr.p ((result.products.map Product.p).sum) = Cell.nan := by
    rw [hp0, hsum]
    exact ieeeDiv_zero_zero
  simpa [buildProductTable, hb, hdiv] using h3 _

/-- Concrete input for the C3 witness: one product of probability zero with a
probability sub-result present. -/
def witZeroResult : Result :=
  { id := ResultId.gate "top",
    products := [{ literals := [{ complement := false, eventId := "a" }], p := 0 }],
    probability_analysis := some 0,
    importance_analysis := none }

theorem zero_total_contribution_nan_witness :
    witZeroResult.probability_analysis.isSome = true ∧
    (List.map Product.p witZeroResult.products).sum = 0 ∧
    (buildProductTable witZeroResult).item 0 3 = some Cell.nan := by
  refine ⟨rfl, by norm_num [witZeroResult], ?_⟩
  exact (zero_total_contribution_nan witZeroResult rfl
    (by simp [witZeroResult]) (by norm_num [witZeroResult])).1 0 _ rfl

/-- Concrete record whose factor bundle carries probability 1/2 while the
referenced event's own probability is 3/10. -/
def probeRecord : ImportanceRecord :=
  { event := { id := "pump", expression := some (3/10), label := "" },
    factors := { occurrence := 2, probability := 1/2,
                 mif := 0, cif := 0, dif := 0, raw := 0, rrw := 0 } }

/-- C2 counterexample: the Probability cell of the built importance table is
`record.event.p()` (mainwindow.cpp:604-605), not the factor bundle's
probability: at `probeRecord` the cell holds 3/10 while the bundle carries
1/2, so the cell is not taken verbatim from the factor bundle. -/
theorem importance_probability_cell_not_verbatim :
    (buildImportanceTable [probeRecord]).item 0 2 = some (Cell.num (3/10)) ∧
    probeRecord.factors.probability = 1/2 ∧
    (buildImportanceTable [probeRecord]).item 0 2
      ≠ some (Cell.num probeRecord.factors.probability) := by
  have hcell : (buildImportanceTable [probeRecord]).item 0 2
      = some (Cell.num (3/10)) := by
    simp [buildImportanceTable, tableRowsLoop, importanceRowWrite,
      TableWidget.setItem, TableWidget.item, TableWidget.setColumnCount,
      TableWidget.setHorizontalHeaderLabels, TableWidget.setRowCount,
      TableWidget.empty, lookupCell, probeRecord, BasicEvent.p]
  refine ⟨hcell, rfl, ?_⟩
  rw [hcell]
  simp only [ne_eq, Option.some.injEq, Cell.num.injEq]
  norm_num [probeRecord]

/-- C2 (amended): the importance table has exactly the 8 columns {Id,
Occurrence, Probability, MIF, CIF, DIF, RAW, RRW} and one row per record;
the Id and Probability cells come from the record's event (its id and its
probability), the remaining cells verbatim from the factor bundle. -/
theorem importance_table_shape (records : List ImportanceRecord) :
    (buildImportanceTable records).columnCount = 8 ∧
    (buildImportanceTable records).headers
      = ["Id", "Occurrence", "Probability", "MIF", "CIF", "DIF", "RAW", "RRW"] ∧
    (buildImportanceTable records).rowCount = records.length ∧
    ∀ i rec, records.get? i = some rec →
      (buildImportanceTable records).item i 0 = some (Cell.str rec.event.id) ∧
      (buildImportanceTable records).item i 1
        = some (Cell.nat rec.factors.occurrence) ∧
      (buildImportanceTable records).item i 2 = some (Cell.num rec.event.p) ∧
      (buildImportanceTable records).item i 3 = some (Cell.num rec.factors.mif) ∧
      (buildImportanceTable records).item i 4 = some (Cell.num rec.factors.cif) ∧
      (buildImportanceTable records).item i 5 = some (Cell.num rec.factors.dif) ∧
      (buildImportanceTable records).item i 6 = some (Cell.num rec.factors.raw) ∧
      (buildImportanceTable records).item i 7 = some (Cell.num rec.factors.rrw) := by
  have hfields := tableRowsLoop_fields importanceRowWrite
    (fun a row t => importanceRowWrite_fields a row t) records 0
    (((TableWidget.empty.setColumnCount 8).setHorizontalHeaderLabels
      ["Id", "Occurrence", "Probability", "MIF", "CIF", "DIF", "RAW", "RRW"]).setRowCount
        records.length)
  refine ⟨by simpa [buildImportanceTable] using hfields.1,
    by simpa [buildImportanceTable] using hfields.2.1,
    by simpa [buildImportanceTable] using hfields.2.2, ?_⟩
  intro i rec hget
  have hc := importanceRowWrite_cells rec
  refine ⟨?_, ?_, ?_, ?_, ?_, ?_, ?_, ?_⟩ <;>
  · first
    | (have h := tableRowsLoop_item_at importanceRowWrite importanceRowWrite_skip 0
        (some (Cell.str rec.event.id)) records i rec hget
        (fun row t => (hc row t).1) 0
       simpa [buildImportanceTable] using h _)
    | (have h := tableRowsLoop_item_at importanceRowWrite importanceRowWrite_skip 1
        (some (Cell.nat rec.factors.occurrence)) records i rec hget
        (fun row t => (hc row t).2.1) 0
       simpa [buildImportanceTable] using h _)
    | (have h := tableRowsLoop_item_at importanceRowWrite importanceRowWrite_skip 2
        (some (Cell.num rec.event.p)) records i rec hget
        (fun row t => (hc row t).2.2.1) 0
       simpa [buildImportanceTable] using h _)
    | (have h := tableRowsLoop_item_at importanceRowWrite importanceRowWrite_skip 3
        (some (Cell.num rec.factors.mif)) records i rec hget
        (fun row t => (hc row t).2.2.2.1) 0
       simpa [buildImportanceTable] using h _)
    | (have h := tableRowsLoop_item_at importanceRowWrite importanceRowWrite_skip 4
        (some (Cell.num rec.factors.cif)) records i rec hget
        (fun row t => (hc row t).2.2.2.2.1) 0
       simpa [buildImportanceTable] using h _)
    | (have h := tableRowsLoop_item_at importanceRowWrite importanceRowWrite_skip 5
        (some (Cell.num rec.factors.dif)) records i rec hget
        (fun row t => (hc row t).2.2.2.2.2.1) 0
       simpa [buildImportanceTable] using h _)
    | (have h := tableRowsLoop_item_at importanceRowWrite importanceRowWrite_skip 6
        (some (Cell.num rec.factors.raw)) records i rec hget
        (fun row t => (hc row t).2.2.2.2.2.2.1) 0
       simpa [buildImportanceTable] using h _)
    | (have h := tableRowsLoop_item_at importanceRowWrite importanceRowWrite_skip 7
        (some (Cell.num rec.factors.rrw)) records i rec hget
        (fun row t => (hc row t).2.2.2.2.2.2.2) 0
       simpa [buildImportanceTable] using h _)

theorem importance_table_shape_witness :
    (buildImportanceTable [probeRecord]).columnCount = 8 ∧
    (buildImportanceTable [probeRecord]).rowCount = 1 ∧
    (buildImportanceTable [probeRecord]).item 0 1 = some (Cell.nat 2) := by
  obtain ⟨h1, -, h3, h4⟩ := importance_table_shape [probeRecord]
  refine ⟨h1, by simpa using h3, ?_⟩
  have := (h4 0 probeRecord rfl).2.1
  simpa [probeRecord] using this

/-! ## Diagram builder

Modelled from the spec: the DAG-aware diagram construction performed by the
`diagram::Gate` constructor with its transfer map
(`std::unordered_map<const mef::Gate *, diagram::Gate *>`, used at
mainwindow.cpp:457-459) lives in the diagram component, whose source is not
part of this repository snapshot.  Following §4.2 of the specification: the
builder keeps a map from gate identity to the already-constructed visual
node; a visited gate is linked, not re-expanded; an unvisited gate is
recorded in the map *before* its children are visited; one parent-child edge
is produced per child reference.  Gate identity is referential
(`const mef::Gate *`), modelled as `Nat`. -/

/-- Referential gate identity (the `const mef::Gate *` keys of the transfer
map). -/
abbrev GateId := Nat

/-- The child references of each gate (`Gate` children in the gate graph). -/
abbrev GateGraph := GateId → List GateId

/-- The scene being constructed: the transfer map, as the list of gate
identities that already have a visual node (in construction order), plus the
parent-child edges drawn so far. -/
structure DiagramState where
  visited : List GateId
  edges : List (GateId × GateId)
deriving DecidableEq

/-- The scene before any gate is drawn. -/
def emptyDiagram : DiagramState := ⟨[], []⟩

/-- Modelled from the spec (§4.2): visit one gate.  An identity already in
the map is linked by its parent without re-expansion; otherwise a visual
node is created and recorded before the children are visited.  `fuel` bounds
the recursion depth; any `fuel` larger than the number of distinct gates is
enough (each level of nesting expands a fresh gate). -/
def visitGate (graph : GateGraph) : Nat → GateId → DiagramState → DiagramState
  | 0, _, st => st
  | fuel + 1, g, st =>
    if g ∈ st.visited then st
    else
      (graph g).foldl
        (fun acc c =>
          let acc1 := visitGate graph fuel c acc
          { acc1 with edges := acc1.edges ++ [(g, c)] })
        { st with visited := st.visited ++ [g] }

/-- The loop over one expanded gate's children: visit each child (a no-op
when it already has a node) and then draw the edge from the parent to it. -/
def visitChildren (graph : GateGraph) (fuel : Nat) (parent : GateId) :
    List GateId → DiagramState → DiagramState
  | [], st => st
  | c :: cs, st =>
    let st1 := visitGate graph fuel c st
    visitChildren graph fuel parent cs { st1 with edges := st1.edges ++ [(parent, c)] }

theorem foldl_eq_visitChildren (graph : GateGraph) (fuel : Nat) (parent : GateId) :
    ∀ (cs : List GateId) (st : DiagramState),
      cs.foldl
        (fun acc c =>
          let acc1 := visitGate graph fuel c acc
          { acc1 with edges := acc1.edges ++ [(parent, c)] }) st
      = visitChildren graph fuel parent cs st := by
  intro cs
  induction cs with
  | nil => intro st; rfl
  | cons c cs ih =>
    intro st
    rw [List.foldl_cons, visitChildren]
    exact ih _

theorem visitGate_succ (graph : GateGraph) (fuel : Nat) (g : GateId) (st : DiagramState) :
    visitGate graph (fuel + 1) g st
      = if g ∈ st.visited then st
        else visitChildren graph fuel g (graph g) { st with visited := st.visited ++ [g] } := by
  rw [visitGate, foldl_eq_visitChildren]

/-- The whole scene for a root gate: `fuel` is one more than the number of
gates of the model, which suffices because every level of recursion nesting
expands one more distinct gate. -/
def buildDiagram (graph : GateGraph) (gates : List GateId) (root : GateId) : DiagramState :=
  visitGate graph (gates.length + 1) root emptyDiagram

/-- Reachability in the gate graph along child references. -/
inductive Reaches (graph : GateGraph) : GateId → GateId → Prop
  | refl (g : GateId) : Reaches graph g g
  | step {g c x : GateId} : c ∈ graph g → Reaches graph c x → Reaches graph g x

/-- Shape of one children pass, given the shape of `visitGate` at the same
fuel: the map grows by fresh, duplicate-free identities, and exactly one
edge is drawn per child reference plus the edges of the newly expanded
gates. -/
theorem visitChildren_shape (graph : GateGraph) (fuel : Nat)
    (hgate : ∀ g st, ∃ nv ne,
      (visitGate graph fuel g st).visited = st.visited ++ nv ∧
      (visitGate graph fuel g st).edges = st.edges ++ ne ∧
      nv.Nodup ∧ (∀ x ∈ nv, x ∉ st.visited) ∧
      ne.length = (nv.map (fun v => (graph v).length)).sum) :
    ∀ (cs : List GateId) (parent : GateId) (st : DiagramState), ∃ nv ne,
      (visitChildren graph fuel parent cs st).visited = st.visited ++ nv ∧
      (visitChildren graph fuel parent cs st).edges = st.edges ++ ne ∧
      nv.Nodup ∧ (∀ x ∈ nv, x ∉ st.visited) ∧
      ne.length = cs.length + (nv.map (fun v => (graph v).length)).sum := by
  intro cs
  induction cs with
  | nil =>
    intro parent st
    exact ⟨[], [], by simp [visitChildren], by simp [visitChildren],
      List.nodup_nil, by simp, by simp [visitChildren]⟩
  | cons c cs ih =>
    intro parent st
    obtain ⟨nv1, ne1, hv1, he1, hnd1, hf1, hl1⟩ := hgate c st
    obtain ⟨nv2, ne2, hv2, he2, hnd2, hf2, hl2⟩ :=
      ih parent { visited := (visitGate graph fuel c st).visited,
                  edges := (visitGate graph fuel c st).edges ++ [(parent, c)] }
    refine ⟨nv1 ++ nv2, (ne1 ++ [(parent, c)]) ++ ne2, ?_, ?_, ?_, ?_, ?_⟩
    · simp only [visitChildren]
      rw [hv2]
      simp only [hv1, List.append_assoc]
    · simp only [visitChildren]
      rw [he2]
      simp only [he1, List.append_assoc]
    · refine List.Nodup.append hnd1 hnd2 ?_
      intro a ha1 ha2
      refine hf2 a ha2 ?_
      rw [hv1]
      exact List.mem_append_right _ ha1
    · intro x hx
      rcases List.mem_append.mp hx with hx1 | hx2
      · exact hf1 x hx1
      · intro hxst
        refine hf2 x hx2 ?_
        rw [hv1]
        exact List.mem_append_left _ hxst
    · rw [List.length_append, List.length_append, hl1, hl2]
      simp only [List.map_append, List.sum_append, List.length_cons,
        List.length_singleton, List.length_nil]
      omega

/-- Shape of `visitGate`: the gates it adds are fresh and duplicate-free,
and the edges it adds are exactly the child references of the gates it
expanded. -/
theorem visitGate_shape (graph : GateGraph) :
    ∀ (fuel : Nat) (g : GateId) (st : DiagramState), ∃ nv ne,
      (visitGate graph fuel g st).visited = st.visited ++ nv ∧
      (visitGate graph fuel g st).edges = st.edges ++ ne ∧
      nv.Nodup ∧ (∀ x ∈ nv, x ∉ st.visited) ∧
      ne.length = (nv.map (fun v => (graph v).length)).sum := by
  intro fuel
  induction fuel with
  | zero =>
    intro g st
    exact ⟨[], [], by simp [visitGate], by simp [visitGate],
      List.nodup_nil, by simp, by simp⟩
  | succ fuel ih =>
    intro g st
    rw [visitGate_succ]
    by_cases hg : g ∈ st.visited
    · rw [if_pos hg]
      exact ⟨[], [], by simp, by simp, List.nodup_nil, by simp, by simp⟩
    · rw [if_neg hg]
      obtain ⟨nv, ne, hv, he, hnd, hf, hl⟩ :=
        visitChildren_shape graph fuel ih (graph g) g
          { st with visited := st.visited ++ [g] }
      refine ⟨g :: nv, ne, ?_, ?_, ?_, ?_, ?_⟩
      · rw [hv]; simp
      · rw [he]
      · exact List.nodup_cons.mpr ⟨fun hgnv => hf g hgnv (by simp), hnd⟩
      · intro x hx
        rcases List.mem_cons.mp hx with rfl | hx
        · exact hg
        · intro hxst
          exact hf x hx (by simp [hxst])
      · rw [hl]; simp

/-- The map of constructed nodes only grows. -/
theorem visitGate_mono (graph : GateGraph) (fuel : Nat) (g : GateId)
    (st : DiagramState) : ∀ x ∈ st.visited, x ∈ (visitGate graph fuel g st).visited := by
  obtain ⟨nv, ne, hv, -⟩ := visitGate_shape graph fuel g st
  intro x hx
  rw [hv]
  exact List.mem_append_left _ hx

theorem visitChildren_mono (graph : GateGraph) (fuel : Nat) (parent : GateId)
    (cs : List GateId) (st : DiagramState) :
    ∀ x ∈ st.visited, x ∈ (visitChildren graph fuel parent cs st).visited := by
  obtain ⟨nv, ne, hv, -⟩ :=
    visitChildren_shape graph fuel (visitGate_shape graph fuel) cs parent st
  intro x hx
  rw [hv]
  exact List.mem_append_left _ hx

/-- Every node a children pass adds was reached from one of the children. -/
theorem visitChildren_sound (graph : GateGraph) (fuel : Nat)
    (hgate : ∀ g st x, x ∈ (visitGate graph fuel g st).visited →
      x ∈ st.visited ∨ Reaches graph g x) :
    ∀ (cs : List GateId) (parent : GateId) (st : DiagramState) (x : GateId),
      x ∈ (visitChildren graph fuel parent cs st).visited →
      x ∈ st.visited ∨ ∃ c ∈ cs, Reaches graph c x := by
  intro cs
  induction cs with
  | nil => intro parent st x hx; exact Or.inl hx
  | cons c cs ih =>
    intro parent st x hx
    simp only [visitChildren] at hx
    rcases ih parent _ x hx with hmid | ⟨c2, hc2, hr⟩
    · rcases hgate c st x hmid with hst | hr
      · exact Or.inl hst
      · exact Or.inr ⟨c, List.mem_cons_self c cs, hr⟩
    · exact Or.inr ⟨c2, List.mem_cons_of_mem c hc2, hr⟩

/-- Every node `visitGate` adds is reachable from the visited gate. -/
theorem visitGate_sound (graph : GateGraph) :
    ∀ (fuel : Nat) (g : GateId) (st : DiagramState) (x : GateId),
      x ∈ (visitGate graph fuel g st).visited →
      x ∈ st.visited ∨ Reaches graph g x := by
  intro fuel
  induction fuel with
  | zero => intro g st x hx; exact Or.inl hx
  | succ fuel ih =>
    intro g st x hx
    rw [visitGate_succ] at hx
    by_cases hg : g ∈ st.visited
    · rw [if_pos hg] at hx; exact Or.inl hx
    · rw [if_neg hg] at hx
      rcases visitChildren_sound graph fuel ih (graph g) g _ x hx with hsta | ⟨c, hc, hr⟩
      · rcases List.mem_append.mp hsta with h1 | h2
        · exact Or.inl h1
        · have hxg : x = g := by simpa using h2
          exact Or.inr (by rw [hxg]; exact Reaches.refl g)
      · exact Or.inr (Reaches.step hc hr)

/-- Number of gates of the model that do not yet have a visual node; the
fuel budget of the traversal is measured against it. -/
def freshCount (gates : List GateId) (st : DiagramState) : Nat :=
  (gates.filter (fun v => decide (v ∉ st.visited))).length

theorem filter_length_le_of_imp {p q : GateId → Bool}
    (h : ∀ a, p a = true → q a = true) :
    ∀ l : List GateId, (l.filter p).length ≤ (l.filter q).length := by
  intro l
  induction l with
  | nil => exact Nat.le_refl 0
  | cons a l ih =>
    by_cases hp : p a = true
    · have hq := h a hp
      simp only [List.filter_cons, hp, hq, if_true, List.length_cons]
      omega
    · have hp2 : p a = false := by revert hp; cases p a <;> simp
      by_cases hq : q a = true
      · simp only [List.filter_cons, hp2, hq, if_true, Bool.false_eq_true,
          if_false, List.length_cons]
        omega
      · have hq2 : q a = false := by revert hq; cases q a <;> simp
        simp only [List.filter_cons, hp2, hq2, Bool.false_eq_true, if_false]
        exact ih

theorem filter_length_lt_of_imp {p q : GateId → Bool}
    (h : ∀ a, p a = true → q a = true) (b : GateId)
    (hqb : q b = true) (hpb : p b = false) :
    ∀ l : List GateId, b ∈ l → (l.filter p).length < (l.filter q).length := by
  intro l
  induction l with
  | nil => intro hb; simp at hb
  | cons a l ih =>
    intro hb
    rcases List.mem_cons.mp hb with rfl | hb
    · have hle := filter_length_le_of_imp h l
      simp only [List.filter_cons, hpb, hqb, if_true, Bool.false_eq_true,
        if_false, List.length_cons]
      omega
    · have hlt := ih hb
      by_cases hpa : p a = true
      · have hqa := h a hpa
        simp only [List.filter_cons, hpa, hqa, if_true, List.length_cons]
        omega
      · have hpa2 : p a = false := by revert hpa; cases p a <;> simp
        by_cases hqa : q a = true
        · simp only [List.filter_cons, hpa2, hqa, if_true, Bool.false_eq_true,
            if_false, List.length_cons]
          omega
        · have hqa2 : q a = false := by revert hqa; cases q a <;> simp
          simp only [List.filter_cons, hpa2, hqa2, Bool.false_eq_true, if_false]
          exact hlt

theorem freshCount_le (gates : List GateId) (st st2 : DiagramState)
    (h : ∀ x ∈ st.visited, x ∈ st2.visited) :
    freshCount gates st2 ≤ freshCount gates st := by
  unfold freshCount
  refine filter_length_le_of_imp ?_ gates
  intro a ha
  simp only [decide_eq_true_eq] at ha ⊢
  exact fun hmem => ha (h a hmem)

theorem freshCount_lt (gates : List GateId) (st : DiagramState) (g : GateId)
    (hg : g ∈ gates) (hnv : g ∉ st.visited) :
    freshCount gates { st with visited := st.visited ++ [g] }
      < freshCount gates st := by
  unfold freshCount
  refine filter_length_lt_of_imp ?_ g ?_ ?_ gates hg
  · intro a ha
    simp only [decide_eq_true_eq] at ha ⊢
    exact fun hmem => ha (List.mem_append_left _ hmem)
  · simp only [decide_eq_true_eq]
    exact hnv
  · simp [List.mem_append]

theorem freshCount_zero (gates : List GateId) (st : DiagramState)
    (h : freshCount gates st = 0) : ∀ g ∈ gates, g ∈ st.visited := by
  intro g hg
  by_contra hng
  have hmem : g ∈ gates.filter (fun v => decide (v ∉ st.visited)) :=
    List.mem_filter.mpr ⟨hg, by simpa using hng⟩
  have hpos := List.length_pos.mpr (List.ne_nil_of_mem hmem)
  unfold freshCount at h
  omega

/-- A children pass with enough fuel gets every child into the map and keeps
the freshly added part of the map closed under child references. -/
theorem visitChildren_complete (graph : GateGraph) (gates : List GateId)
    (fuel : Nat)
    (hgate : ∀ g st, g ∈ gates → freshCount gates st ≤ fuel →
      g ∈ (visitGate graph fuel g st).visited ∧
      (∀ v ∈ (visitGate graph fuel g st).visited, v ∉ st.visited →
        ∀ c ∈ graph v, c ∈ (visitGate graph fuel g st).visited)) :
    ∀ (cs : List GateId) (parent : GateId) (st : DiagramState),
      (∀ c ∈ cs, c ∈ gates) → freshCount gates st ≤ fuel →
      (∀ c ∈ cs, c ∈ (visitChildren graph fuel parent cs st).visited) ∧
      (∀ v ∈ (visitChildren graph fuel parent cs st).visited, v ∉ st.visited →
        ∀ c ∈ graph v, c ∈ (visitChildren graph fuel parent cs st).visited) := by
  intro cs
  induction cs with
  | nil =>
    intro parent st hcs hbudget
    exact ⟨fun c hc => absurd hc (List.not_mem_nil c),
      fun v hv hnv c hc => absurd hv hnv⟩
  | cons c cs ih =>
    intro parent st hcs hbudget
    obtain ⟨hc_in, hclose1⟩ :=
      hgate c st (hcs c (List.mem_cons_self c cs)) hbudget
    have hmono1 := visitGate_mono graph fuel c st
    have hbudget2 : freshCount gates
        { visited := (visitGate graph fuel c st).visited,
          edges := (visitGate graph fuel c st).edges ++ [(parent, c)] } ≤ fuel :=
      le_trans (freshCount_le gates st _ hmono1) hbudget
    obtain ⟨hcs_in, hclose2⟩ :=
      ih parent { visited := (visitGate graph fuel c st).visited,
                  edges := (visitGate graph fuel c st).edges ++ [(parent, c)] }
        (fun x hx => hcs x (List.mem_cons_of_mem c hx)) hbudget2
    have hmono2 := visitChildren_mono graph fuel parent cs
      { visited := (visitGate graph fuel c st).visited,
        edges := (visitGate graph fuel c st).edges ++ [(parent, c)] }
    constructor
    · intro x hx
      rcases List.mem_cons.mp hx with rfl | hx
      · simp only [visitChildren]
        exact hmono2 x hc_in
      · simp only [visitChildren]
        exact hcs_in x hx
    · intro v hv hnv e he
      simp only [visitChildren] at hv ⊢
      by_cases hv1 : v ∈ (visitGate graph fuel c st).visited
      · exact hmono2 e (hclose1 v hv1 hnv e he)
      · exact hclose2 v hv hv1 e he

/-- `visitGate` with enough fuel puts the visited gate into the map and
keeps the freshly added part of the map closed under child references. -/
theorem visitGate_complete (graph : GateGraph) (gates : List GateId)
    (closed : ∀ v ∈ gates, ∀ c ∈ graph v, c ∈ gates) :
    ∀ (fuel : Nat) (g : GateId) (st : DiagramState), g ∈ gates →
      freshCount gates st ≤ fuel →
      g ∈ (visitGate graph fuel g st).visited ∧
      (∀ v ∈ (visitGate graph fuel g st).visited, v ∉ st.visited →
        ∀ c ∈ graph v, c ∈ (visitGate graph fuel g st).visited) := by
  intro fuel
  induction fuel with
  | zero =>
    intro g st hg hbudget
    have hall := freshCount_zero gates st (Nat.le_zero.mp hbudget)
    exact ⟨hall g hg, fun v hv hnv => absurd hv hnv⟩
  | succ fuel ih =>
    intro g st hg hbudget
    by_cases hgv : g ∈ st.visited
    · rw [visitGate_succ, if_pos hgv]
      exact ⟨hgv, fun v hv hnv => absurd hv hnv⟩
    · have hfresh := freshCount_lt gates st g hg hgv
      have hbudget2 : freshCount gates
          { st with visited := st.visited ++ [g] } ≤ fuel := by omega
      obtain ⟨hin, hclose⟩ :=
        visitChildren_complete graph gates fuel ih (graph g) g
          { st with visited := st.visited ++ [g] } (closed g hg) hbudget2
      rw [visitGate_succ, if_neg hgv]
      constructor
      · refine visitChildren_mono graph fuel g (graph g) _ g ?_
        simp
      · intro v hv hnv e he
        by_cases hvg : v = g
        · subst hvg
          exact hin e he
        · refine hclose v hv ?_ e he
          simp [List.mem_append, hnv, hvg]

/-- A set of nodes closed under child references contains everything
reachable from any of its members. -/
theorem mem_of_reaches (graph : GateGraph) (V : List GateId)
    (hcl : ∀ v ∈ V, ∀ c ∈ graph v, c ∈ V) {g x : GateId} :
    g ∈ V → Reaches graph g x → x ∈ V := by
  intro hg hr
  revert hg
  induction hr with
  | refl a => exact fun h => h
  | step hc hr2 ih => exact fun hg => ih (hcl _ hg _ hc)

/-- Case analysis on a reachability witness. -/
theorem reaches_inv {graph : GateGraph} {a b : GateId} (h : Reaches graph a b) :
    a = b ∨ ∃ c ∈ graph a, Reaches graph c b := by
  cases h with
  | refl => exact Or.inl rfl
  | step hc hr => exact Or.inr ⟨_, hc, hr⟩

/-- C1: for a finite gate graph (all gates listed in `gates`, closed under
child references), the diagram built for a root gate has no duplicate
visual node — exactly one node per distinct reachable gate identity, however
many parents reference it — and its edge count is the number of parent-child
relationships, the sum over the rendered gates of their child-reference
counts (which may exceed the node count). -/
theorem diagram_one_node_per_gate (graph : GateGraph) (gates : List GateId)
    (root : GateId) (hroot : root ∈ gates)
    (closed : ∀ v ∈ gates, ∀ c ∈ graph v, c ∈ gates) :
    (buildDiagram graph gates root).visited.Nodup ∧
    (∀ v, v ∈ (buildDiagram graph gates root).visited ↔ Reaches graph root v) ∧
    (buildDiagram graph gates root).edges.length
      = ((buildDiagram graph gates root).visited.map
          (fun v => (graph v).length)).sum := by
  have hbudget : freshCount gates emptyDiagram ≤ gates.length + 1 := by
    unfold freshCount
    have := List.length_filter_le (fun v => decide (v ∉ emptyDiagram.visited)) gates
    omega
  obtain ⟨nv, ne, hv, he, hnd, hf, hl⟩ :=
    visitGate_shape graph (gates.length + 1) root emptyDiagram
  obtain ⟨hin, hclose⟩ :=
    visitGate_complete graph gates closed (gates.length + 1) root
      emptyDiagram hroot hbudget
  refine ⟨?_, ?_, ?_⟩
  · unfold buildDiagram
    rw [hv]
    simpa using hnd
  · intro v
    constructor
    · intro hvmem
      unfold buildDiagram at hvmem
      rcases visitGate_sound graph (gates.length + 1) root emptyDiagram v hvmem
        with h0 | hr
      · exact absurd h0 (List.not_mem_nil v)
      · exact hr
    · intro hr
      unfold buildDiagram
      exact mem_of_reaches graph _
        (fun a ha c hc => hclose a ha (List.not_mem_nil a) c hc) hin hr
  · unfold buildDiagram
    rw [he, hv]
    simpa [emptyDiagram] using hl

/-- The diamond witness graph: gate 0 has children 1 and 2, which share the
sub-gate 3; 3 distinct sub-gates below the root, 4 parent-child edges. -/
def wGraph : GateGraph := fun g =>
  if g = 0 then [1, 2] else if g = 1 then [3] else if g = 2 then [3] else []

/-- The gate universe of the diamond witness. -/
def wGates : List GateId := [0, 1, 2, 3]

theorem diagram_one_node_per_gate_witness :
    (0 : GateId) ∈ wGates ∧
    (buildDiagram wGraph wGates 0).visited = [0, 1, 3, 2] ∧
    (buildDiagram wGraph wGates 0).edges.length = 4 ∧
    (buildDiagram wGraph wGates 0).visited.Nodup := by
  refine ⟨by decide, by decide, by decide, ?_⟩
  exact (diagram_one_node_per_gate wGraph wGates 0 (by decide) (by decide)).1

/-! ## Fault trees, the model, and the diagram action -/

/-- A `mef::FaultTree`: name and the ordered top-level gates
(`top_events()`). -/
structure FaultTree where
  name : String
  topEvents : List GateId
deriving DecidableEq

/-- The `mef::Model` data mainwindow.cpp reads: name, fault trees,
basic-event pool, each gate's child references, and the finite universe of
gate identities of the model. -/
structure Model where
  name : String
  faultTrees : List FaultTree
  basicEvents : List BasicEvent
  gateChildren : List (GateId × List GateId)
  gates : List GateId
deriving DecidableEq

/-- Child references of one gate, looked up in the model's gate graph; a
gate without an entry has no children. -/
def lookupChildren (assoc : List (GateId × List GateId)) (g : GateId) :
    List GateId :=
  match assoc.find? (fun p => p.1 == g) with
  | some p => p.2
  | none => []

/-- The model's gate graph as a function. -/
def graphOf (m : Model) : GateGraph := fun g => lookupChildren m.gateChildren g

/-- The scene built on activating a fault-tree node (mainwindow.cpp:455-472):
`new diagram::Gate(*faultTree->top_events().front(), &transfer)` hands only
the FIRST top-level gate to the diagram builder.  (`front()` of an empty
vector is undefined behaviour in C++; the total model returns the default
identity 0 there, and every theorem about it assumes a nonempty
`top_events()`.) -/
def diagramScene (m : Model) (ft : FaultTree) : DiagramState :=
  buildDiagram (graphOf m) m.gates (ft.topEvents.headD 0)

/-- C10: the scene built for a fault tree is the diagram of the first
top-level gate alone; any gate unreachable from that first gate — in
particular any further top-level gate of the fault tree that is not below
the first one — is never rendered. -/
theorem diagram_only_first_top_gate (m : Model) (ft : FaultTree)
    (g1 : GateId) (rest : List GateId) (h : ft.topEvents = g1 :: rest) :
    diagramScene m ft = buildDiagram (graphOf m) m.gates g1 ∧
    ∀ g, ¬ Reaches (graphOf m) g1 g → g ∉ (diagramScene m ft).visited := by
  have hscene : diagramScene m ft = buildDiagram (graphOf m) m.gates g1 := by
    unfold diagramScene
    rw [h]
    rfl
  refine ⟨hscene, ?_⟩
  intro g hnr hmem
  rw [hscene] at hmem
  unfold buildDiagram at hmem
  rcases visitGate_sound (graphOf m) (m.gates.length + 1) g1 emptyDiagram g hmem
    with h0 | hr
  · exact absurd h0 (List.not_mem_nil g)
  · exact hnr hr

/-- The witness fault tree for C10: two top-level gates, the second not
reachable from the first. -/
def wFirstTree : FaultTree := { name := "ft", topEvents := [0, 5] }

/-- The witness model for C10: gate 0 has one child 1; gate 5 is a second
top-level gate not below gate 0. -/
def wModel10 : Model :=
  { name := "m", faultTrees := [wFirstTree], basicEvents := [],
    gateChildren := [(0, [1])], gates := [0, 1, 5] }

theorem diagram_only_first_top_gate_witness :
    wFirstTree.topEvents = 0 :: [5] ∧
    5 ∉ (diagramScene wModel10 wFirstTree).visited := by
  have hg0 : graphOf wModel10 0 = [1] := rfl
  have hg1 : graphOf wModel10 1 = [] := rfl
  have hnr : ¬ Reaches (graphOf wModel10) 0 5 := by
    intro h
    rcases reaches_inv h with h05 | ⟨c, hc, hr⟩
    · exact absurd h05 (by decide)
    · rw [hg0] at hc
      have hc1 : c = 1 := by simpa using hc
      subst hc1
      rcases reaches_inv hr with h15 | ⟨c2, hc2, -⟩
      · exact absurd h15 (by decide)
      · rw [hg1] at hc2
        exact absurd hc2 (List.not_mem_nil c2)
  exact ⟨rfl, (diagram_only_first_top_gate wModel10 wFirstTree 0 [5] rfl).2 5 hnr⟩

/-! ## Report tree (mainwindow.cpp:509-627)

`resetReportWidget` clears the report tree and the action registry, then
adds one top-level item per analysis result with its summary children:
always a products child (registered with the product-table action), then a
probability child when that sub-result exists (no registered action), then
an importance child when that sub-result exists (registered with the
importance-table action).  Tree-item identities are `QTreeWidgetItem*`
pointers, modelled by a monotone allocator: `clear()` destroys items but a
later allocation never reuses a live identity, so fresh ids keep growing. -/

/-- The label shown on a report tree item, with the datum it is formatted
from: `tr("Products: %L1").arg(count)`, `tr("Probability: %1").arg(value)`,
`tr("Importance Factors: %L1").arg(count)`, or a result's display name. -/
inductive Label where
  | nameL (s : String)
  | productsL (n : Nat)
  | probabilityL (q : ℚ)
  | importanceL (n : Nat)
deriving DecidableEq

/-- A deferred materialization action registered for a summary child: build
the product table or the importance table of its result. -/
inductive TableAction where
  | productTable (r : Result)
  | importanceTable (r : Result)
deriving DecidableEq

/-- Running a registered action on activation
(`m_reportActions` lambdas, mainwindow.cpp:537 and 589). -/
def runTableAction : TableAction → TableWidget
  | TableAction.productTable r => buildProductTable r
  | TableAction.importanceTable r =>
      buildImportanceTable (r.importance_analysis.getD [])

/-- A summary child of a result item. -/
structure ChildItem where
  id : Nat
  label : Label
deriving DecidableEq

/-- A top-level report tree item with its summary children. -/
structure TopItem where
  id : Nat
  label : Label
  children : List ChildItem
deriving DecidableEq

/-- The report widget state: the `QTreeWidgetItem*` allocator, the rendered
top-level items, and the `m_reportActions` registry. -/
structure ReportState where
  nextId : Nat
  items : List TopItem
  actions : List (Nat × TableAction)
deriving DecidableEq

/-- Model of the `nameExtractor` visitor (mainwindow.cpp:514-526): a gate
reference yields the gate's id; the initiating-event/sequence pair hits
`GUI_ASSERT(false && "unexpected analysis target", {})`.  Modelled from the
spec: `GUI_ASSERT` (guiassert.h, not part of this snapshot) is specified in
§4.3/§7 to fail fast with an internal-invariant signal rather than render
silently, embedded as an `Except.error`. -/
def nameExtractor : ResultId → Except String String
  | ResultId.gate gid => Except.ok gid
  | ResultId.sequencePair _ _ => Except.error "unexpected analysis target"

/-- One iteration of the result loop (mainwindow.cpp:529-625) with the name
already extracted: allocate the top-level item and the products child
(registering the product-table action), then the probability child if
present (no action), then the importance child if present (registering the
importance-table action). -/
def addResultItems (r : Result) (name : String) (st : ReportState) : ReportState :=
  let n := st.nextId
  let prodChild : ChildItem := { id := n + 1, label := Label.productsL r.products.length }
  match r.probability_analysis, r.importance_analysis with
  | none, none =>
    { nextId := n + 2,
      items := st.items ++ [{ id := n, label := Label.nameL name,
                              children := [prodChild] }],
      actions := st.actions ++ [(n + 1, TableAction.productTable r)] }
  | some q, none =>
    { nextId := n + 3,
      items := st.items ++ [{ id := n, label := Label.nameL name,
                              children := [prodChild,
                                { id := n + 2, label := Label.probabilityL q }] }],
      actions := st.actions ++ [(n + 1, TableAction.productTable r)] }
  | none, some recs =>
    { nextId := n + 3,
      items := st.items ++ [{ id := n, label := Label.nameL name,
                              children := [prodChild,
                                { id := n + 2, label := Label.importanceL recs.length }] }],
      actions := st.actions ++ [(n + 1, TableAction.productTable r),
                                (n + 2, TableAction.importanceTable r)] }
  | some q, some recs =>
    { nextId := n + 4,
      items := st.items ++ [{ id := n, label := Label.nameL name,
                              children := [prodChild,
                                { id := n + 2, label := Label.probabilityL q },
                                { id := n + 3, label := Label.importanceL recs.length }] }],
      actions := st.actions ++ [(n + 1, TableAction.productTable r),
                                (n + 3, TableAction.importanceTable r)] }

/-- The result loop of `resetReportWidget`: each result's display name is
extracted (failing fast on the unexpected variant), then its items are
added. -/
def reportLoop : List Result → ReportState → Except String ReportState
  | [], st => Except.ok st
  | r :: rest, st =>
    match nameExtractor r.id with
    | Except.ok name => reportLoop rest (addResultItems r name st)
    | Except.error e => Except.error e

/-- `MainWindow::resetReportWidget` (mainwindow.cpp:509-627): clear the
report tree and the action registry (lines 511-512), then run the result
loop. -/
def resetReportWidget (st : ReportState) (results : List Result) :
    Except String ReportState :=
  reportLoop results { st with items := [], actions := [] }

/-- The summary children a result must produce, in order: products,
probability if present, importance if present (§4.3). -/
def childLabels (r : Result) : List Label :=
  [Label.productsL r.products.length]
  ++ (match r.probability_analysis with
      | some q => [Label.probabilityL q]
      | none => [])
  ++ (match r.importance_analysis with
      | some recs => [Label.importanceL recs.length]
      | none => [])

/-- All registered action keys are identities the allocator has produced. -/
def actionsWF (st : ReportState) : Prop :=
  ∀ k a, (k, a) ∈ st.actions → k < st.nextId

/-- What C5 requires of one rendered result item, relative to the final
registry: the children labels in the required order, the products child
first and registered with the product-table action, any probability child
registered with nothing, and an importance child registered with the
importance-table action when that sub-result exists. -/
def itemOK (r : Result) (item : TopItem) (acts : List (Nat × TableAction)) : Prop :=
  item.children.map ChildItem.label = childLabels r ∧
  (∃ c, item.children.get? 0 = some c ∧
    c.label = Label.productsL r.products.length ∧
    (c.id, TableAction.productTable r) ∈ acts) ∧
  (∀ c ∈ item.children, ∀ q, c.label = Label.probabilityL q →
    ∀ a, (c.id, a) ∉ acts) ∧
  (∀ recs, r.importance_analysis = some recs →
    ∃ c ∈ item.children, c.label = Label.importanceL recs.length ∧
      (c.id, TableAction.importanceTable r) ∈ acts)

/-- Everything one result-loop iteration does to the report state: it keeps
the registry well-formed, advances the allocator, appends registry entries
keyed by fresh identities, and appends exactly one item whose children
satisfy `itemOK` with the bounds needed to lift it over later iterations. -/
theorem addResultItems_spec (r : Result) (name : String) (st : ReportState)
    (hwf : actionsWF st) :
    actionsWF (addResultItems r name st) ∧
    st.nextId < (addResultItems r name st).nextId ∧
    (∃ acts1, (addResultItems r name st).actions = st.actions ++ acts1 ∧
      ∀ k a, (k, a) ∈ acts1 → st.nextId ≤ k) ∧
    (∃ item, (addResultItems r name st).items = st.items ++ [item] ∧
      item.id = st.nextId ∧
      (∀ c ∈ item.children,
        st.nextId ≤ c.id ∧ c.id < (addResultItems r name st).nextId) ∧
      itemOK r item (addResultItems r name st).actions) := by
  cases hp : r.probability_analysis with
  | none =>
    cases hi : r.importance_analysis with
    | none =>
      simp only [addResultItems, hp, hi]
      refine ⟨?_, by omega,
        ⟨[(st.nextId + 1, TableAction.productTable r)], rfl, ?_⟩,
        ⟨_, rfl, rfl, ?_, ?_, ⟨_, rfl, rfl, by simp⟩, ?_, ?_⟩⟩
      · intro k a hmem
        (try dsimp only at hmem ⊢)
        rcases List.mem_append.mp hmem with hold | hnew
        · have := hwf k a hold
          omega
        · simp only [List.mem_cons, List.not_mem_nil, or_false,
            Prod.mk.injEq] at hnew
          obtain ⟨h1, -⟩ := hnew
          omega
      · intro k a hmem
        simp only [List.mem_cons, List.not_mem_nil, or_false,
          Prod.mk.injEq] at hmem
        obtain ⟨h1, -⟩ := hmem
        omega
      · intro c hc
        simp only [List.mem_cons, List.not_mem_nil, or_false] at hc
        subst hc
        exact ⟨by (try dsimp only); omega, by (try dsimp only); omega⟩
      · simp [childLabels, hp, hi]
      · intro c hc q2 hq2
        simp only [List.mem_cons, List.not_mem_nil, or_false] at hc
        subst hc
        simp at hq2
      · intro recs2 hrecs2
        rw [hi] at hrecs2
        exact Option.noConfusion hrecs2
    | some recs =>
      simp only [addResultItems, hp, hi]
      refine ⟨?_, by omega,
        ⟨[(st.nextId + 1, TableAction.productTable r),
          (st.nextId + 2, TableAction.importanceTable r)], rfl, ?_⟩,
        ⟨_, rfl, rfl, ?_, ?_, ⟨_, rfl, rfl, by simp⟩, ?_, ?_⟩⟩
      · intro k a hmem
        (try dsimp only at hmem ⊢)
        rcases List.mem_append.mp hmem with hold | hnew
        · have := hwf k a hold
          omega
        · simp only [List.mem_cons, List.not_mem_nil, or_false,
            Prod.mk.injEq] at hnew
          rcases hnew with ⟨h1, -⟩ | ⟨h1, -⟩ <;> omega
      · intro k a hmem
        simp only [List.mem_cons, List.not_mem_nil, or_false,
          Prod.mk.injEq] at hmem
        rcases hmem with ⟨h1, -⟩ | ⟨h1, -⟩ <;> omega
      · intro c hc
        simp only [List.mem_cons, List.not_mem_nil, or_false] at hc
        rcases hc with rfl | rfl <;>
          exact ⟨by (try dsimp only); omega, by (try dsimp only); omega⟩
      · simp [childLabels, hp, hi]
      · intro c hc q2 hq2
        simp only [List.mem_cons, List.not_mem_nil, or_false] at hc
        rcases hc with rfl | rfl <;> simp at hq2
      · intro recs2 hrecs2
        rw [hi] at hrecs2
        obtain rfl := Option.some.inj hrecs2
        exact ⟨{ id := st.nextId + 2, label := Label.importanceL recs.length },
          by simp, rfl, by simp⟩
  | some q =>
    cases hi : r.importance_analysis with
    | none =>
      simp only [addResultItems, hp, hi]
      refine ⟨?_, by omega,
        ⟨[(st.nextId + 1, TableAction.productTable r)], rfl, ?_⟩,
        ⟨_, rfl, rfl, ?_, ?_, ⟨_, rfl, rfl, by simp⟩, ?_, ?_⟩⟩
      · intro k a hmem
        (try dsimp only at hmem ⊢)
        rcases List.mem_append.mp hmem with hold | hnew
        · have := hwf k a hold
          omega
        · simp only [List.mem_cons, List.not_mem_nil, or_false,
            Prod.mk.injEq] at hnew
          obtain ⟨h1, -⟩ := hnew
          omega
      · intro k a hmem
        simp only [List.mem_cons, List.not_mem_nil, or_false,
          Prod.mk.injEq] at hmem
        obtain ⟨h1, -⟩ := hmem
        omega
      · intro c hc
        simp only [List.mem_cons, List.not_mem_nil, or_false] at hc
        rcases hc with rfl | rfl <;>
          exact ⟨by (try dsimp only); omega, by (try dsimp only); omega⟩
      · simp [childLabels, hp, hi]
      · intro c hc q2 hq2
        simp only [List.mem_cons, List.not_mem_nil, or_false] at hc
        rcases hc with rfl | rfl
        · simp at hq2
        · intro a hmem
          try dsimp only at hmem
          rcases List.mem_append.mp hmem with hold | hnew
          · have := hwf _ _ hold
            omega
          · simp only [List.mem_cons, List.not_mem_nil, or_false,
              Prod.mk.injEq] at hnew
            obtain ⟨h1, -⟩ := hnew
            omega
      · intro recs2 hrecs2
        rw [hi] at hrecs2
        exact Option.noConfusion hrecs2
    | some recs =>
      simp only [addResultItems, hp, hi]
      refine ⟨?_, by omega,
        ⟨[(st.nextId + 1, TableAction.productTable r),
          (st.nextId + 3, TableAction.importanceTable r)], rfl, ?_⟩,
        ⟨_, rfl, rfl, ?_, ?_, ⟨_, rfl, rfl, by simp⟩, ?_, ?_⟩⟩
      · intro k a hmem
        (try dsimp only at hmem ⊢)
        rcases List.mem_append.mp hmem with hold | hnew
        · have := hwf k a hold
          omega
        · simp only [List.mem_cons, List.not_mem_nil, or_false,
            Prod.mk.injEq] at hnew
          rcases hnew with ⟨h1, -⟩ | ⟨h1, -⟩ <;> omega
      · intro k a hmem
        simp only [List.mem_cons, List.not_mem_nil, or_false,
          Prod.mk.injEq] at hmem
        rcases hmem with ⟨h1, -⟩ | ⟨h1, -⟩ <;> omega
      · intro c hc
        simp only [List.mem_cons, List.not_mem_nil, or_false] at hc
        rcases hc with rfl | rfl | rfl <;>
          exact ⟨by (try dsimp only); omega, by (try dsimp only); omega⟩
      · simp [childLabels, hp, hi]
      · intro c hc q2 hq2
        simp only [List.mem_cons, List.not_mem_nil, or_false] at hc
        rcases hc with rfl | rfl | rfl
        · simp at hq2
        · intro a hmem
          try dsimp only at hmem
          rcases List.mem_append.mp hmem with hold | hnew
          · have := hwf _ _ hold
            omega
          · simp only [List.mem_cons, List.not_mem_nil, or_false,
              Prod.mk.injEq] at hnew
            rcases hnew with ⟨h1, -⟩ | ⟨h1, -⟩ <;> omega
        · simp at hq2
      · intro recs2 hrecs2
        rw [hi] at hrecs2
        obtain rfl := Option.some.inj hrecs2
        exact ⟨{ id := st.nextId + 3, label := Label.importanceL recs.length },
          by simp, rfl, by simp⟩

/-- The result loop of `resetReportWidget`, end to end: the registry stays
well-formed, everything it adds is keyed by fresh identities, and it appends
one item per result, in result order, each satisfying `itemOK` with respect
to the final registry. -/
theorem reportLoop_spec :
    ∀ (results : List Result) (st st2 : ReportState),
      actionsWF st → reportLoop results st = Except.ok st2 →
      actionsWF st2 ∧ st.nextId ≤ st2.nextId ∧
      (∃ acts2, st2.actions = st.actions ++ acts2 ∧
        ∀ k a, (k, a) ∈ acts2 → st.nextId ≤ k) ∧
      (∃ items2, st2.items = st.items ++ items2 ∧
        items2.length = results.length ∧
        (∀ item ∈ items2, st.nextId ≤ item.id ∧
          ∀ c ∈ item.children, st.nextId ≤ c.id) ∧
        (∀ i r, results.get? i = some r →
          ∃ item, items2.get? i = some item ∧ itemOK r item st2.actions)) := by
  intro results
  induction results with
  | nil =>
    intro st st2 hwf hok
    simp only [reportLoop] at hok
    obtain rfl := Except.ok.inj hok
    refine ⟨hwf, Nat.le_refl _, ⟨[], by simp, by simp⟩,
      ⟨[], by simp, rfl, by simp, ?_⟩⟩
    intro i r hget
    simp at hget
  | cons r rest ih =>
    intro st st2 hwf hok
    simp only [reportLoop] at hok
    cases hname : nameExtractor r.id with
    | error e =>
      simp only [hname] at hok
      exact Except.noConfusion hok
    | ok name =>
      simp only [hname] at hok
      obtain ⟨hwf1, hlt1, ⟨acts1, hacts1, hfresh1⟩,
        ⟨item, hitems1, hid, hbounds, hOK⟩⟩ := addResultItems_spec r name st hwf
      obtain ⟨hwf2, hle2, ⟨acts2, hacts2, hfresh2⟩,
        ⟨items2, hitems2, hlen2, hbnds2, hidx2⟩⟩ :=
        ih (addResultItems r name st) st2 hwf1 hok
      refine ⟨hwf2, by omega, ⟨acts1 ++ acts2, ?_, ?_⟩,
        ⟨item :: items2, ?_, ?_, ?_, ?_⟩⟩
      · rw [hacts2, hacts1, List.append_assoc]
      · intro k a hmem
        rcases List.mem_append.mp hmem with h1 | h2
        · exact hfresh1 k a h1
        · have := hfresh2 k a h2
          omega
      · rw [hitems2, hitems1]
        simp
      · simp [hlen2]
      · intro it hit
        rcases List.mem_cons.mp hit with rfl | hit2
        · exact ⟨by omega, fun c hc => (hbounds c hc).1⟩
        · obtain ⟨hb1, hb2⟩ := hbnds2 it hit2
          exact ⟨by omega, fun c hc => by have := hb2 c hc; omega⟩
      · intro i rr hget
        match i with
        | 0 =>
          simp only [List.get?] at hget
          cases hget
          refine ⟨item, rfl, ?_⟩
          obtain ⟨hlab, ⟨c0, hc0get, hc0lab, hc0mem⟩, hprob, himp⟩ := hOK
          refine ⟨hlab, ⟨c0, hc0get, hc0lab, ?_⟩, ?_, ?_⟩
          · rw [hacts2]
            exact List.mem_append_left _ hc0mem
          · intro c hc qq hq a hmem
            rw [hacts2] at hmem
            rcases List.mem_append.mp hmem with h1 | h2
            · exact hprob c hc qq hq a h1
            · have hge := hfresh2 c.id a h2
              have hlt := (hbounds c hc).2
              omega
          · intro recs hrecs
            obtain ⟨c, hcmem, hclab, hcact⟩ := himp recs hrecs
            refine ⟨c, hcmem, hclab, ?_⟩
            rw [hacts2]
            exact List.mem_append_left _ hcact
        | Nat.succ j =>
          simp only [List.get?] at hget
          obtain ⟨item2, hgt, hOK2⟩ := hidx2 j rr hget
          exact ⟨item2, hgt, hOK2⟩

/-- C5: a successful report rebuild renders one top-level item per result,
in result order; each item's summary children carry, in this fixed order,
the products label with the product count, then — only when the probability
sub-result exists — the probability label with the total probability, then —
only when the importance sub-result exists — the importance label with the
record count; the products child is first and registered with the
product-table action, a probability child is registered with no action, and
an importance child is registered with the importance-table action. -/
theorem result_tree_children_order (st : ReportState) (results : List Result)
    (st2 : ReportState) (h : resetReportWidget st results = Except.ok st2) :
    st2.items.length = results.length ∧
    ∀ i r, results.get? i = some r →
      ∃ item, st2.items.get? i = some item ∧
        item.children.map ChildItem.label = childLabels r ∧
        (∃ c, item.children.get? 0 = some c ∧
          c.label = Label.productsL r.products.length ∧
          (c.id, TableAction.productTable r) ∈ st2.actions) ∧
        (∀ c ∈ item.children, ∀ q, c.label = Label.probabilityL q →
          ∀ a, (c.id, a) ∉ st2.actions) ∧
        (∀ recs, r.importance_analysis = some recs →
          ∃ c ∈ item.children, c.label = Label.importanceL recs.length ∧
            (c.id, TableAction.importanceTable r) ∈ st2.actions) := by
  unfold resetReportWidget at h
  have hwf0 : actionsWF { st with items := [], actions := [] } := by
    intro k a hmem
    simp at hmem
  obtain ⟨-, -, -, ⟨items2, hitems2, hlen2, -, hidx2⟩⟩ :=
    reportLoop_spec results { st with items := [], actions := [] } st2 hwf0 h
  have hitems : st2.items = items2 := by simpa using hitems2
  constructor
  · rw [hitems, hlen2]
  · intro i r hget
    obtain ⟨item, hgt, hOK⟩ := hidx2 i r hget
    exact ⟨item, by rw [hitems]; exact hgt, hOK⟩

/-- Concrete result for the C5 witness: gate-named result with a
probability sub-result and no importance sub-result. -/
def witTreeResult : Result :=
  { id := ResultId.gate "g", products := [],
    probability_analysis := some 0, importance_analysis := none }

/-- The report state the C5 witness rebuild produces. -/
def witTreeState : ReportState :=
  ⟨3, [⟨0, Label.nameL "g", [⟨1, Label.productsL 0⟩, ⟨2, Label.probabilityL 0⟩]⟩],
   [(1, TableAction.productTable witTreeResult)]⟩

theorem result_tree_children_order_witness :
    resetReportWidget ⟨0, [], []⟩ [witTreeResult] = Except.ok witTreeState ∧
    witTreeState.items.length = 1 := by
  have h : resetReportWidget ⟨0, [], []⟩ [witTreeResult]
      = Except.ok witTreeState := rfl
  exact ⟨h, (result_tree_children_order _ _ _ h).1⟩

/-- C6: the result-identity visitor maps a gate reference to exactly the
gate's id, and fails fast with the internal-invariant signal on the
initiating-event/sequence pair, which aborts the whole tree build instead
of rendering a node. -/
theorem result_id_variant_handling :
    (∀ ie sq : String, nameExtractor (ResultId.sequencePair ie sq)
      = Except.error "unexpected analysis target") ∧
    (∀ gid : String, nameExtractor (ResultId.gate gid) = Except.ok gid) ∧
    (∀ (r : Result) (rest : List Result) (st : ReportState) (ie sq : String),
      r.id = ResultId.sequencePair ie sq →
      reportLoop (r :: rest) st = Except.error "unexpected analysis target") := by
  refine ⟨fun ie sq => rfl, fun gid => rfl, ?_⟩
  intro r rest st ie sq hid
  simp only [reportLoop, hid, nameExtractor]

/-- Concrete result with the unexpected identity variant, for the C6
witness. -/
def witSeqResult : Result :=
  { id := ResultId.sequencePair "ie" "sq", products := [],
    probability_analysis := none, importance_analysis := none }

theorem result_id_variant_handling_witness :
    nameExtractor (ResultId.gate "top") = Except.ok "top" ∧
    reportLoop [witSeqResult] ⟨0, [], []⟩
      = Except.error "unexpected analysis target" :=
  ⟨result_id_variant_handling.2.1 "top",
   result_id_variant_handling.2.2 witSeqResult [] ⟨0, [], []⟩ "ie" "sq" rfl⟩

/-! ## Main window state (model tree, configuration, run) -/

/-- Opaque analysis settings (`core::Settings`), a value object this layer
only passes through. -/
abbrev Settings := Nat

/-- An action registered in `m_treeActions` for a model-tree node: show the
fault-tree diagram (mainwindow.cpp:455-472) or the basic-event table
(478-501). -/
inductive TreeAction where
  | showDiagram (ft : FaultTree)
  | basicEventTable
deriving DecidableEq

/-- Running a model-tree action on activation. -/
def runTreeAction (m : Model) : TreeAction → Sum DiagramState TableWidget
  | TreeAction.showDiagram ft => Sum.inl (diagramScene m ft)
  | TreeAction.basicEventTable => Sum.inr (buildBasicEventTable m.basicEvents)

/-- The `MainWindow` state touched by the embedded operations: the model,
the recorded input files, the settings, the save-action flag, the model
tree (`m_treeActions` with its item allocator), the report widget
(`ui->reportTreeWidget` + `m_reportActions` + `m_analysis`), the shown
modal message boxes (title, text) and the emitted signals. -/
structure MainState where
  model : Model
  inputFiles : List String
  settings : Settings
  saveEnabled : Bool
  treeNextId : Nat
  faultTreeItems : List (Nat × String)
  treeActions : List (Nat × TreeAction)
  report : ReportState
  analysis : Option (List Result)
  messages : List (String × String)
  signals : List String
deriving DecidableEq

/-- The loop over fault trees in `resetTreeWidget` (mainwindow.cpp:450-473):
one tree item and one registered diagram action per fault tree. -/
def faultTreeLoop : List FaultTree → MainState → MainState
  | [], st => st
  | ft :: rest, st =>
    faultTreeLoop rest
      { st with treeNextId := st.treeNextId + 1,
                faultTreeItems := st.faultTreeItems ++ [(st.treeNextId, ft.name)],
                treeActions := st.treeActions
                  ++ [(st.treeNextId, TreeAction.showDiagram ft)] }

/-- `MainWindow::resetTreeWidget` (mainwindow.cpp:432-507): delete all open
tabs, clear the report tree, the report registry and the stored analysis
(lines 434-442), clear the model-tree registry and items (444-445), then add
one item per fault tree with its diagram action (449-473) and the Basic
Events item with its table action (476-501). -/
def resetTreeWidget (st : MainState) : MainState :=
  let cleared := { st with
    report := { st.report with items := [], actions := [] },
    analysis := none, treeActions := [], faultTreeItems := [] }
  let built := faultTreeLoop cleared.model.faultTrees cleared
  { built with treeNextId := built.treeNextId + 1,
               treeActions := built.treeActions
                 ++ [(built.treeNextId, TreeAction.basicEventTable)] }

theorem faultTreeLoop_fields : ∀ (fts : List FaultTree) (st : MainState),
    (faultTreeLoop fts st).report = st.report ∧
    (faultTreeLoop fts st).analysis = st.analysis ∧
    (faultTreeLoop fts st).model = st.model ∧
    (faultTreeLoop fts st).inputFiles = st.inputFiles := by
  intro fts
  induction fts with
  | nil => intro st; exact ⟨rfl, rfl, rfl, rfl⟩
  | cons ft rest ih =>
    intro st
    simp only [faultTreeLoop]
    exact ih _

/-- A model-change rebuild leaves the report tree and registry empty and
drops the stored analysis. -/
theorem resetTreeWidget_clears_report (st : MainState) :
    (resetTreeWidget st).report.items = [] ∧
    (resetTreeWidget st).report.actions = [] ∧
    (resetTreeWidget st).analysis = none := by
  unfold resetTreeWidget
  obtain ⟨h1, h2, -, -⟩ := faultTreeLoop_fields st.model.faultTrees
    { st with report := { st.report with items := [], actions := [] },
              analysis := none, treeActions := [], faultTreeItems := [] }
  refine ⟨?_, ?_, ?_⟩ <;> simp [h1, h2]

/-- C8: every rebuild of the report tree first removes all registry entries
and tree items: after a run's `resetReportWidget`, every registry entry is
keyed by a freshly allocated identity, no entry keyed by a previous-run
identity survives, no child of the new tree is keyed like any previous
registration (so no first-run registration is reachable from the new tree),
and the new tree has exactly one item per new result; a model-change
rebuild (`resetTreeWidget`) likewise leaves the report registry and tree
empty. -/
theorem rebuild_clears_stale_registrations (st : ReportState)
    (results : List Result) (st2 : ReportState) (mst : MainState)
    (hwf : actionsWF st) (h : resetReportWidget st results = Except.ok st2) :
    (∀ k a, (k, a) ∈ st2.actions → st.nextId ≤ k) ∧
    (∀ k a, (k, a) ∈ st2.actions → ∀ b, (k, b) ∉ st.actions) ∧
    (∀ item ∈ st2.items, ∀ c ∈ item.children, ∀ b, (c.id, b) ∉ st.actions) ∧
    st2.items.length = results.length ∧
    ((resetTreeWidget mst).report.items = [] ∧
      (resetTreeWidget mst).report.actions = [] ∧
      (resetTreeWidget mst).analysis = none) := by
  unfold resetReportWidget at h
  have hwf0 : actionsWF { st with items := [], actions := [] } := by
    intro k a hmem
    simp at hmem
  obtain ⟨-, -, ⟨acts2, hacts2, hfresh2⟩, ⟨items2, hitems2, hlen2, hbnds2, -⟩⟩ :=
    reportLoop_spec results { st with items := [], actions := [] } st2 hwf0 h
  have hacts : st2.actions = acts2 := by simpa using hacts2
  have hitems : st2.items = items2 := by simpa using hitems2
  refine ⟨?_, ?_, ?_, ?_, resetTreeWidget_clears_report mst⟩
  · intro k a hmem
    rw [hacts] at hmem
    have hge := hfresh2 k a hmem
    (try dsimp only at hge)
    exact hge
  · intro k a hmem b hold
    rw [hacts] at hmem
    have hge := hfresh2 k a hmem
    (try dsimp only at hge)
    have hlt := hwf k b hold
    omega
  · intro item hitem c hc b hold
    rw [hitems] at hitem
    have hge := (hbnds2 item hitem).2 c hc
    (try dsimp only at hge)
    have hlt := hwf c.id b hold
    omega
  · rw [hitems, hlen2]

/-- An old result whose registration must not survive the C8 witness
rebuild. -/
def witOldResult : Result :=
  { id := ResultId.gate "top", products := [],
    probability_analysis := none, importance_analysis := none }

/-- A pre-rebuild report state holding a first-run item and registration. -/
def witStaleState : ReportState :=
  ⟨10, [⟨0, Label.nameL "old", [⟨1, Label.productsL 1⟩]⟩],
   [(1, TableAction.productTable witOldResult)]⟩

/-- The report state the C8 witness rebuild produces: only fresh ids. -/
def witFreshState : ReportState :=
  ⟨12, [⟨10, Label.nameL "top", [⟨11, Label.productsL 0⟩]⟩],
   [(11, TableAction.productTable witOldResult)]⟩

/-- A concrete main-window state for the C8 and C9 witnesses. -/
def witMainState : MainState :=
  { model := wModel10, inputFiles := [], settings := 0, saveEnabled := false,
    treeNextId := 0, faultTreeItems := [], treeActions := [],
    report := ⟨0, [], []⟩, analysis := none, messages := [], signals := [] }

theorem rebuild_clears_stale_registrations_witness :
    actionsWF witStaleState ∧
    resetReportWidget witStaleState [witOldResult] = Except.ok witFreshState ∧
    witFreshState.items.length = 1 := by
  have hwf : actionsWF witStaleState := by
    intro k a hmem
    simp [witStaleState] at hmem ⊢
    omega
  have hrun : resetReportWidget witStaleState [witOldResult]
      = Except.ok witFreshState := rfl
  exact ⟨hwf, hrun,
    (rebuild_clears_stale_registrations witStaleState [witOldResult]
      witFreshState witMainState hwf hrun).2.2.2.1⟩

/-! ## Analysis run coordinator (mainwindow.cpp:182-194)

The `actionRun` handler runs the analysis on a background context while the
interactive thread shows the modal wait dialog, blocks on
`futureWatcher.waitForFinished()` and only then calls `resetReportWidget`.
These statements execute in program order on the interactive thread; the
handler is embedded as its sequence of steps. -/

/-- The steps of the `actionRun` handler, in program order. -/
inductive RunEvent where
  | createWaitDialog
  | startBackgroundAnalysis
  | execProgressDialog
  | joinBackground
  | rebuildReportTree
deriving DecidableEq

/-- The `actionRun` handler body (mainwindow.cpp:182-194): construct the
modal wait dialog (183-184), start `Analyze` on the background context
(185-190), run the modal loop until the finished signal (191), block until
the background computation has joined (192), then rebuild the report tree
(193). -/
def actionRunTrace : List RunEvent :=
  [RunEvent.createWaitDialog, RunEvent.startBackgroundAnalysis,
   RunEvent.execProgressDialog, RunEvent.joinBackground,
   RunEvent.rebuildReportTree]

/-- C7: in the run handler every occurrence of the report-tree rebuild comes
strictly after every occurrence of the background join — the blocking wait
returns before the rebuild begins — and the rebuild is the final step, so
the interactive thread processes no navigation action between the join and
the completed tree swap. -/
theorem run_join_before_tree_swap :
    (∀ i j, actionRunTrace.get? i = some RunEvent.joinBackground →
      actionRunTrace.get? j = some RunEvent.rebuildReportTree → i < j) ∧
    actionRunTrace.get? (actionRunTrace.length - 1)
      = some RunEvent.rebuildReportTree := by
  constructor
  · intro i j hi hj
    have hi5 : i < 5 := by
      by_contra hge
      rw [List.get?_eq_none.mpr (by simp [actionRunTrace]; omega)] at hi
      exact Option.noConfusion hi
    have hj5 : j < 5 := by
      by_contra hge
      rw [List.get?_eq_none.mpr (by simp [actionRunTrace]; omega)] at hj
      exact Option.noConfusion hj
    interval_cases i <;> interval_cases j <;> simp_all [actionRunTrace]
  · rfl

theorem run_join_before_tree_swap_witness :
    actionRunTrace.get? 3 = some RunEvent.joinBackground ∧
    actionRunTrace.get? 4 = some RunEvent.rebuildReportTree ∧ 3 < 4 :=
  ⟨rfl, rfl, run_join_before_tree_swap.1 3 4 rfl rfl⟩

/-! ## Configuration and model loading (mainwindow.cpp:199-241) -/

/-- A parsed configuration (`scram::Config`, external, §6): its input files
and settings. -/
structure Config where
  input_files : List String
  settings : Settings
deriving DecidableEq

/-- `MainWindow::addInputFiles` (mainwindow.cpp:221-241), parameterized by
the external model loader (`mef::Initializer(...).model()`, §6): an empty
list is a no-op; on success replace the model, record the combined
input-file list, rebuild the model tree and emit `configChanged`; on a load
error show the modal Initialization Error message carrying the error text
and change nothing else. -/
def addInputFiles (loadModel : List String → Settings → Except String Model)
    (inputFiles : List String) (st : MainState) : MainState :=
  if inputFiles.isEmpty then st
  else
    match loadModel (st.inputFiles ++ inputFiles) st.settings with
    | Except.error e =>
      { st with messages := st.messages ++ [("Initialization Error", e)] }
    | Except.ok m =>
      let st2 := resetTreeWidget
        { st with model := m, inputFiles := st.inputFiles ++ inputFiles }
      { st2 with signals := st2.signals ++ ["configChanged"] }

/-- `MainWindow::setConfig` (mainwindow.cpp:199-219), parameterized by the
external config parser and model loader (§6): parse the config, validate
its input files against its settings with a throwaway loader call, prepend
the config's input files to the given ones, delegate to `addInputFiles`
(which shows its own message on failure and does not rethrow), then adopt
the config's settings, enable the save actions and emit `configChanged`; a
parse or validation error shows the modal Configuration Error message with
the error text and changes nothing else. -/
def setConfig (loadConfig : String → Except String Config)
    (loadModel : List String → Settings → Except String Model)
    (configPath : String) (inputFiles : List String) (st : MainState) :
    MainState :=
  match loadConfig configPath with
  | Except.error e =>
    { st with messages := st.messages ++ [("Configuration Error", e)] }
  | Except.ok config =>
    match loadModel config.input_files config.settings with
    | Except.error e =>
      { st with messages := st.messages ++ [("Configuration Error", e)] }
    | Except.ok _ =>
      let st2 := addInputFiles loadModel (config.input_files ++ inputFiles) st
      let st3 := { st2 with settings := config.settings, saveEnabled := true }
      { st3 with signals := st3.signals ++ ["configChanged"] }

/-- C9: every configuration or model-load error surfaces a modal message
carrying the underlying error text and leaves the model, the recorded
input-file list and the result tree (report state and stored analysis)
exactly as they were: (1) a load error in `addInputFiles`; (2) a config
parse error in `setConfig`; (3) a validation error in `setConfig`; (4) a
load error inside the `addInputFiles` step of `setConfig`. -/
theorem load_error_preserves_state
    (loadConfig : String → Except String Config)
    (loadModel : List String → Settings → Except String Model)
    (configPath : String) (files : List String) (st : MainState) :
    (∀ e, files.isEmpty = false →
      loadModel (st.inputFiles ++ files) st.settings = Except.error e →
      (addInputFiles loadModel files st).model = st.model ∧
      (addInputFiles loadModel files st).inputFiles = st.inputFiles ∧
      (addInputFiles loadModel files st).report = st.report ∧
      (addInputFiles loadModel files st).analysis = st.analysis ∧
      (addInputFiles loadModel files st).messages
        = st.messages ++ [("Initialization Error", e)]) ∧
    (∀ e, loadConfig configPath = Except.error e →
      setConfig loadConfig loadModel configPath files st
        = { st with messages := st.messages ++ [("Configuration Error", e)] }) ∧
    (∀ config e, loadConfig configPath = Except.ok config →
      loadModel config.input_files config.settings = Except.error e →
      setConfig loadConfig loadModel configPath files st
        = { st with messages := st.messages ++ [("Configuration Error", e)] }) ∧
    (∀ config m0 e, loadConfig configPath = Except.ok config →
      loadModel config.input_files config.settings = Except.ok m0 →
      (config.input_files ++ files).isEmpty = false →
      loadModel (st.inputFiles ++ (config.input_files ++ files)) st.settings
        = Except.error e →
      (setConfig loadConfig loadModel configPath files st).model = st.model ∧
      (setConfig loadConfig loadModel configPath files st).inputFiles
        = st.inputFiles ∧
      (setConfig loadConfig loadModel configPath files st).report = st.report ∧
      (setConfig loadConfig loadModel configPath files st).analysis
        = st.analysis) := by
  refine ⟨?_, ?_, ?_, ?_⟩
  · intro e hne herr
    simp only [addInputFiles, hne, Bool.false_eq_true, if_false, herr]
    exact ⟨trivial, trivial, trivial, trivial, trivial⟩
  · intro e herr
    simp only [setConfig, herr]
  · intro config e hcfg herr
    simp only [setConfig, hcfg, herr]
  · intro config m0 e hcfg hval hne herr
    simp only [setConfig, hcfg, hval, addInputFiles, hne, Bool.false_eq_true,
      if_false, herr]
    exact ⟨trivial, trivial, trivial, trivial⟩

/-- An external loader that always fails, for the C9 witness. -/
def witFailLoad : List String → Settings → Except String Model :=
  fun _ _ => Except.error "invalid model"

theorem load_error_preserves_state_witness :
    (["f.xml"] : List String).isEmpty = false ∧
    (addInputFiles witFailLoad ["f.xml"] witMainState).model
      = witMainState.model ∧
    (addInputFiles witFailLoad ["f.xml"] witMainState).messages
      = witMainState.messages ++ [("Initialization Error", "invalid model")] := by
  obtain ⟨h1, -, -, -, h5⟩ :=
    (load_error_preserves_state (fun p => Except.error "no config") witFailLoad
      "cfg" ["f.xml"] witMainState).1 "invalid model" rfl rfl
  exact ⟨rfl, h1, h5⟩

end Scram
